import Mathlib

/-!
Verification of the CHAPS `.tt` binary timetable decoder
(`scripts/tt_decoder_v2.py`, class `TTDecoderV2`).

The decoder is embedded shallowly: the input file is a list of byte
values, every method of the class becomes a total Lean function, Python
floats used for the heuristic scores become exact rationals, and Python's
`float('-inf')` sentinel becomes the `none` case of an `Option ℚ`.
-/

namespace TT

/-- A raw input file: a sequence of byte values (each `< 256`). -/
abbrev Bytes := List Nat

/-- A decoded stop name: a sequence of Unicode characters. -/
abbrev Name := List Char

/-- One time record of a trip: `(stop_index, minute_of_day)`. -/
abbrev Entry := Nat × Nat

/-- A trip: an ordered sequence of time records. -/
abbrev Trip := List Entry

/-- The travel-time edge table: an insertion-ordered association list from
`(from_stop, to_stop)` to the list of observed travel times, mirroring a
Python `dict` keyed by pairs. -/
abbrev Edges := List ((Nat × Nat) × List Int)

/-- Byte at position `i` (reads past the end yield 0; every read the
decoder performs is guarded in the source, so the default is never hit on
the paths we reason about). -/
def byteAt (d : Bytes) (i : Nat) : Nat := d.getD i 0

/-- Source: `struct.unpack('<I', data[i:i+4])`: little-endian 32-bit read. -/
def u32le (d : Bytes) (i : Nat) : Nat :=
  byteAt d i + 256 * (byteAt d (i+1) + 256 * (byteAt d (i+2) + 256 * byteAt d (i+3)))

/-! ### Code page 1250

`bytes.decode('cp1250', ...)`: bytes `0x00`–`0x7F` are ASCII; the high
half follows the Windows-1250 table; bytes `0x81, 0x83, 0x88, 0x90, 0x98`
are undefined (skipped under `errors='ignore'`, replaced by U+FFFD under
`errors='replace'`). -/

/-- Unicode code point assigned to a byte by code page 1250 (`none` for
the five undefined bytes). -/
def cp1250CodePoint (b : Nat) : Option Nat :=
  if b < 0x80 then some b else
  match b with
  | 0x80 => some 0x20AC | 0x82 => some 0x201A | 0x84 => some 0x201E
  | 0x85 => some 0x2026 | 0x86 => some 0x2020 | 0x87 => some 0x2021
  | 0x89 => some 0x2030 | 0x8A => some 0x0160 | 0x8B => some 0x2039
  | 0x8C => some 0x015A | 0x8D => some 0x0164 | 0x8E => some 0x017D
  | 0x8F => some 0x0179
  | 0x91 => some 0x2018 | 0x92 => some 0x2019 | 0x93 => some 0x201C
  | 0x94 => some 0x201D | 0x95 => some 0x2022 | 0x96 => some 0x2013
  | 0x97 => some 0x2014
  | 0x99 => some 0x2122 | 0x9A => some 0x0161 | 0x9B => some 0x203A
  | 0x9C => some 0x015B | 0x9D => some 0x0165 | 0x9E => some 0x017E
  | 0x9F => some 0x017A
  | 0xA0 => some 0x00A0 | 0xA1 => some 0x02C7 | 0xA2 => some 0x02D8
  | 0xA3 => some 0x0141 | 0xA4 => some 0x00A4 | 0xA5 => some 0x0104
  | 0xA6 => some 0x00A6 | 0xA7 => some 0x00A7 | 0xA8 => some 0x00A8
  | 0xA9 => some 0x00A9 | 0xAA => some 0x015E | 0xAB => some 0x00AB
  | 0xAC => some 0x00AC | 0xAD => some 0x00AD | 0xAE => some 0x00AE
  | 0xAF => some 0x017B
  | 0xB0 => some 0x00B0 | 0xB1 => some 0x00B1 | 0xB2 => some 0x02DB
  | 0xB3 => some 0x0142 | 0xB4 => some 0x00B4 | 0xB5 => some 0x00B5
  | 0xB6 => some 0x00B6 | 0xB7 => some 0x00B7 | 0xB8 => some 0x00B8
  | 0xB9 => some 0x0105 | 0xBA => some 0x015F | 0xBB => some 0x00BB
  | 0xBC => some 0x013D | 0xBD => some 0x02DD | 0xBE => some 0x013E
  | 0xBF => some 0x017C
  | 0xC0 => some 0x0154 | 0xC1 => some 0x00C1 | 0xC2 => some 0x00C2
  | 0xC3 => some 0x0102 | 0xC4 => some 0x00C4 | 0xC5 => some 0x0139
  | 0xC6 => some 0x0106 | 0xC7 => some 0x00C7 | 0xC8 => some 0x010C
  | 0xC9 => some 0x00C9 | 0xCA => some 0x0118 | 0xCB => some 0x00CB
  | 0xCC => some 0x011A | 0xCD => some 0x00CD | 0xCE => some 0x00CE
  | 0xCF => some 0x010E
  | 0xD0 => some 0x0110 | 0xD1 => some 0x0143 | 0xD2 => some 0x0147
  | 0xD3 => some 0x00D3 | 0xD4 => some 0x00D4 | 0xD5 => some 0x0150
  | 0xD6 => some 0x00D6 | 0xD7 => some 0x00D7 | 0xD8 => some 0x0158
  | 0xD9 => some 0x016E | 0xDA => some 0x00DA | 0xDB => some 0x0170
  | 0xDC => some 0x00DC | 0xDD => some 0x00DD | 0xDE => some 0x0162
  | 0xDF => some 0x00DF
  | 0xE0 => some 0x0155 | 0xE1 => some 0x00E1 | 0xE2 => some 0x00E2
  | 0xE3 => some 0x0103 | 0xE4 => some 0x00E4 | 0xE5 => some 0x013A
  | 0xE6 => some 0x0107 | 0xE7 => some 0x00E7 | 0xE8 => some 0x010D
  | 0xE9 => some 0x00E9 | 0xEA => some 0x0119 | 0xEB => some 0x00EB
  | 0xEC => some 0x011B | 0xED => some 0x00ED | 0xEE => some 0x00EE
  | 0xEF => some 0x010F
  | 0xF0 => some 0x0111 | 0xF1 => some 0x0144 | 0xF2 => some 0x0148
  | 0xF3 => some 0x00F3 | 0xF4 => some 0x00F4 | 0xF5 => some 0x0151
  | 0xF6 => some 0x00F6 | 0xF7 => some 0x00F7 | 0xF8 => some 0x0159
  | 0xF9 => some 0x016F | 0xFA => some 0x00FA | 0xFB => some 0x0171
  | 0xFC => some 0x00FC | 0xFD => some 0x00FD | 0xFE => some 0x0163
  | 0xFF => some 0x02D9
  | _ => none

/-- Source: `bytes.decode('cp1250', errors='ignore')`. -/
def decodeCp1250Ignore (bs : Bytes) : Name :=
  bs.filterMap (fun b => (cp1250CodePoint b).map Char.ofNat)

/-- Source: `bytes.decode('cp1250', errors='replace')`. -/
def decodeCp1250Replace (bs : Bytes) : Name :=
  bs.map (fun b => Char.ofNat ((cp1250CodePoint b).getD 0xFFFD))

/-! ### Python string primitives used by the decoder -/

/-- Characters stripped by Python's `str.strip()` (restricted to the
whitespace code points producible from code page 1250). -/
def pyIsSpace (c : Char) : Bool :=
  c.toNat = 0x09 || c.toNat = 0x0A || c.toNat = 0x0B || c.toNat = 0x0C ||
  c.toNat = 0x0D || c.toNat = 0x1C || c.toNat = 0x1D || c.toNat = 0x1E ||
  c.toNat = 0x1F || c.toNat = 0x20 || c.toNat = 0x85 || c.toNat = 0xA0

/-- Source: `str.strip()`. -/
def pyStrip (s : Name) : Name :=
  ((s.dropWhile pyIsSpace).reverse.dropWhile pyIsSpace).reverse

/-- Source: `str.rstrip('\x00')`. -/
def rstripNul (s : Name) : Name :=
  (s.reverse.dropWhile (fun c => c.toNat = 0)).reverse

/-- Uppercase Latin-Extended-A letters of the CP1250 repertoire whose
lowercase form is the next code point. -/
def latinExtUpper : List Nat :=
  [0x0102, 0x0104, 0x0106, 0x010C, 0x010E, 0x0110, 0x0118, 0x011A,
   0x0139, 0x013D, 0x0141, 0x0143, 0x0147, 0x0150, 0x0154, 0x0158,
   0x015A, 0x015E, 0x0160, 0x0162, 0x0164, 0x016E, 0x0170, 0x0179,
   0x017B, 0x017D]

/-- Source: `str.lower()`, restricted to the characters producible from
code page 1250 (identity everywhere else). -/
def lowerChar (c : Char) : Char :=
  let v := c.toNat
  if 0x41 ≤ v ∧ v ≤ 0x5A then Char.ofNat (v + 32)
  else if 0xC0 ≤ v ∧ v ≤ 0xDE ∧ v ≠ 0xD7 then Char.ofNat (v + 32)
  else if v ∈ latinExtUpper then Char.ofNat (v + 1)
  else c

/-- Source: `str.lower()` over a whole name. -/
def lowerName (s : Name) : Name := s.map lowerChar

/-- Source: `str.isalpha()` for a single character, over the CP1250 repertoire:
ASCII letters, the accented Latin-1 letters (excluding `×` and `÷`),
Latin-Extended-A letters, the micro sign, and the caron modifier letter. -/
def isAlphaCh (c : Char) : Bool :=
  let v := c.toNat
  (0x41 ≤ v && v ≤ 0x5A) || (0x61 ≤ v && v ≤ 0x7A) ||
  (0xC0 ≤ v && v ≤ 0xFF && v ≠ 0xD7 && v ≠ 0xF7) ||
  (0x100 ≤ v && v ≤ 0x17F) || v = 0xB5 || v = 0x2C7

/-- Source: `haystack.startswith(needle)` for Python strings. -/
def leadsWith : Name → Name → Bool
  | [], _ => true
  | _ :: _, [] => false
  | a :: as, b :: bs => a == b && leadsWith as bs

/-- Source: `needle in haystack` for Python strings: substring containment. -/
def containsSub (needle haystack : Name) : Bool :=
  match haystack with
  | [] => needle.isEmpty
  | c :: t => leadsWith needle (c :: t) || containsSub needle t

/-! ### Keyword denylists (class constants of `TTDecoderV2`) -/

/-- Source: `TTDecoderV2.SERVICE_TEXT_KEYWORDS`. -/
def SERVICE_TEXT_KEYWORDS : List Name :=
  ["arbeitstage", "working day", "monday", "tuesday", "wednesday",
   "thursday", "friday", "saturday", "sunday", "jede", "premáva",
   "montag", "dienstag", "mittwoch", "donnerstag", "freitag", "samstag",
   "sonntag", "pondělí", "úterý", "středu", "čtvrtek", "pátek", "sobotu",
   "neděli", "pracovních dnech", "pondelok", "utorok", "stredu",
   "štvrtok", "piatok", "nedeľu", "pracovných dňoch", "jede v",
   "státem uznané svátky", "štátom uznané sviatky", "platzreservierung",
   "místenku", "rezervace", "rezervácia", "bezbariéro", "občerstven",
   "na znamení", "na znamenie", "integrovanej dopravy", "svátek",
   "sviat"].map String.data

/-- Source: `TTDecoderV2.BAD_STOP_KEYWORDS`. -/
def BAD_STOP_KEYWORDS : List Name :=
  ["copyright", "http://", "https://", "internet", "pid.tt"].map String.data

/-- Source: `TTDecoderV2.STOP_NOTE_KEYWORDS`. -/
def STOP_NOTE_KEYWORDS : List Name :=
  ["{l}", "¤¤", "spoj ", "linka ", "jede jen", "tarif", "přeprav",
   "preprav", "ceník", "cenník", "informace", "vozidlech", "zvýhodně",
   "zvyhodne", "bankovní", "bankovu", "na lince platí"].map String.data

/-- Source: `POI_KEYWORDS` (local constant of `_filter_stops`). -/
def POI_KEYWORDS : List Name :=
  ["unicredit", "spořitelna", "sporitelna", "pobočka", "pobocka",
   "a.s.", "bankomat", "banka,", "bank,"].map String.data

/-! ### `_verify_header` -/

/-- Source: `_verify_header`: the file must be at least 66 bytes long and its
first 60 bytes, decoded as code page 1250 with `errors='ignore'`, must
contain the tokens `TT`, `TimeTable` and `CHAPS`. -/
def verifyHeader (d : Bytes) : Bool :=
  decide (66 ≤ d.length) &&
  (let hdr := decodeCp1250Ignore (d.take 60)
   containsSub "TT".data hdr && containsSub "TimeTable".data hdr &&
   containsSub "CHAPS".data hdr)

/-! ### `_extract_stop_candidate` -/

/-- Weak monotonicity check for the string-offset table (the source
rejects the candidate at the first decreasing adjacent pair, which is
equivalent to this adjacent-pairs check over the full read list). -/
def monoNondec : List Nat → Bool
  | [] => true
  | [_] => true
  | a :: b :: r => decide (a ≤ b) && monoNondec (b :: r)

/-- One stop name: `blob_data[start:end]` decoded as code page 1250 with
`errors='replace'`, then `rstrip('\x00').strip()`. -/
def decodeName (nameBytes : Bytes) : Name :=
  pyStrip (rstripNul (decodeCp1250Replace nameBytes))

/-- The per-pair name builder of `_extract_stop_candidate`: walks the
consecutive offset pairs, rejecting the candidate if a pair is decreasing
or reaches past the blob. -/
def buildNames (blob : Bytes) (blobSize : Nat) : List Nat → Option (List Name)
  | [] => some []
  | [_] => some []
  | a :: b :: r =>
    if b < a ∨ blobSize < b then none
    else (buildNames blob blobSize (b :: r)).map
      (fun ns => decodeName ((blob.drop a).take (b - a)) :: ns)

/-- The string offsets of a candidate at `off`: `item_count` little-endian
words following the two header words. -/
def readOffs (d : Bytes) (off : Nat) : List Nat :=
  (List.range (u32le d (off+4))).map (fun i => u32le d (off + 8 + 4*i))

/-- Source: `_extract_stop_candidate`: parse the canonical stop-table layout at
`off`, returning the decoded names, or `none` when any layout check
fails. -/
def extractStopCandidate (d : Bytes) (off : Nat) : Option (List Name) :=
  if d.length < off + 8 then none
  else
    let totalBytes := u32le d off
    let itemCount := u32le d (off+4)
    if totalBytes ≠ itemCount * 4 then none
    else if itemCount < 2 ∨ 20000 < itemCount then none
    else
      let offsetsEnd := off + 8 + totalBytes
      if d.length < offsetsEnd + 8 then none
      else
        let offs := readOffs d off
        if ¬ monoNondec offs then none
        else
          let bs1 := u32le d offsetsEnd
          let bs2 := u32le d (offsetsEnd + 4)
          if bs1 ≠ bs2 ∨ bs1 = 0 then none
          else if offs.getLast? ≠ some bs1 then none
          else
            let blobDataStart := offsetsEnd + 8
            if d.length < blobDataStart + bs1 then none
            else buildNames ((d.drop blobDataStart).take bs1) bs1 offs

/-! ### `_score_stop_candidate` and `_find_stops` -/

/-- Source: `_is_likely_service_text`. -/
def isLikelyServiceText (name : Name) : Bool :=
  SERVICE_TEXT_KEYWORDS.any (fun kw => containsSub kw (lowerName name))

/-- Source: `_score_stop_candidate`: composite quality score of a candidate stop
list; `none` plays the role of `float('-inf')` (lists shorter than 10
names). All float arithmetic is modelled exactly in `ℚ`. -/
def scoreStopCandidate (ns : List Name) : Option ℚ :=
  if ns.length < 10 then none
  else
    let n : ℚ := ns.length
    let lowered := ns.map lowerName
    let badHits : ℚ :=
      (lowered.filter (fun nm => BAD_STOP_KEYWORDS.any (fun kw => containsSub kw nm))).length
    let serviceHits : ℚ := (ns.filter isLikelyServiceText).length
    let noteHits : ℚ :=
      (lowered.filter (fun nm => STOP_NOTE_KEYWORDS.any (fun kw => containsSub kw nm))).length
    let emptyCount : ℚ := (ns.filter (fun nm => nm.isEmpty)).length
    let shortCount : ℚ := (ns.filter (fun nm => (pyStrip nm).length ≤ 1)).length
    let veryLongCount : ℚ := (ns.filter (fun nm => 45 < nm.length)).length
    let markupCount : ℚ :=
      (ns.filter (fun nm => nm.any (fun c =>
        c = Char.ofNat 0x7B || c = Char.ofNat 0x7D || c = '¤' || c = '|'))).length
    let uniqFrac : ℚ := (ns.dedup.length : ℚ) / n
    let avgLen : ℚ := ((ns.map List.length).sum : ℚ) / n
    let totalChars : ℚ := if (ns.map List.length).sum = 0 then 1 else ((ns.map List.length).sum : ℚ)
    let alphaChars : ℚ := ((ns.map (fun nm => (nm.filter isAlphaCh).length)).sum : ℚ)
    let alphaFrac : ℚ := alphaChars / totalChars
    let score : ℚ := n + min avgLen 30 * 2 + uniqFrac * 35
      - badHits * 15 - serviceHits * 10 - noteHits * 10 - emptyCount * 20
      - shortCount * 4 - veryLongCount * 6 - markupCount * 15
    let score := if 1/4 < serviceHits / n then score - 80 else score
    let score := if 1/5 < noteHits / n then score - 80 else score
    let score := if alphaFrac < 45/100 then score - 30 else score
    let score := if uniqFrac < 3/5 then score - 25 else score
    let score := if 1/5 < veryLongCount / n then score - 50 else score
    some score

/-- The offsets probed by `_find_stops`: for each of the four byte
alignments, every fourth offset from `0x40 + alignment` up to (but
excluding) `min(0x40 + search_limit, len(data) - 8)`. -/
def candidateOffsets (d : Bytes) : List Nat :=
  let fs := d.length
  let searchLimit :=
    if fs < 1000000 then fs
    else if fs < 10000000 then 1000000
    else if fs < 40000000 then 4000000
    else 8000000
  let maxOff := min (0x40 + searchLimit) (d.length - 8)
  (List.range 4).flatMap (fun al =>
    List.range' (0x40 + al) ((maxOff - (0x40 + al) + 3) / 4) 4)

/-- Source: `_find_stops`: scan all candidate offsets, keep the best-scoring
candidate (strict improvement, so the first best wins), and accept it iff
it has at least 10 names.  The source's two acceptance branches
(score ≥ 20, and the low-quality fallback) both return the same data, so
they collapse to the single length test. -/
def findStops (d : Bytes) : Option (List Name × Nat × ℚ) :=
  let best := (candidateOffsets d).foldl
    (fun best off =>
      match extractStopCandidate d off with
      | none => best
      | some names =>
        if names.isEmpty then best
        else match scoreStopCandidate names with
          | none => best
          | some sc =>
            match best with
            | none => some (names, off, sc)
            | some (_, _, bs) => if bs < sc then some (names, off, sc) else best)
    none
  match best with
  | none => none
  | some (names, off, sc) => if 10 ≤ names.length then some (names, off, sc) else none

/-! ### `_find_p_records` -/

/-- Does the two-byte separator `0xA4 0xA4` start at `j`?  (A slice
shorter than two bytes never equals the separator.) -/
def sepAt (d : Bytes) (j : Nat) : Bool :=
  decide (j + 2 ≤ d.length) && byteAt d j == 0xA4 && byteAt d (j+1) == 0xA4

/-- The inner scan of `_find_p_records`: advance `record_end` until the
separator or the window end.  The loop advances by one position per
iteration and stops at `endI`, so a fuel of `endI - j` iterations is
always sufficient; fuel is structural so that the function reduces in the
kernel. -/
def scanRecEnd (d : Bytes) (endI : Nat) : Nat → Nat → Nat
  | 0, j => j
  | fuel + 1, j =>
    if j < endI ∧ sepAt d j = false then scanRecEnd d endI fuel (j+1) else j

/-- The outer loop of `_find_p_records`.  Each iteration advances the
position by at least one, and the loop stops before `endI`, so a fuel of
`endI + 1` iterations is always sufficient. -/
def pLoop (d : Bytes) (endI : Nat) : Nat → Nat → List Name → List Name
  | 0, _, acc => acc
  | fuel + 1, i, acc =>
    if i < endI - 100 then
      if byteAt d i = 0x50 then
        let re := scanRecEnd d endI (endI - i) (i+1)
        let s := decodeCp1250Ignore ((d.drop i).take (re - i))
        pLoop d endI fuel (re + 2) (if s.head? = some 'P' then acc ++ [s] else acc)
      else pLoop d endI fuel (i+1) acc
    else acc

/-- Source: `_find_p_records`: scan `[0x1000, min(0x1000+50000, len))` for
records starting with ASCII `P` and ending at the `0xA4 0xA4` separator;
keep the first 50. -/
def findPRecords (d : Bytes) : List Name :=
  (pLoop d (min (0x1000 + 50000) d.length) (min (0x1000 + 50000) d.length + 1)
    0x1000 []).take 50

/-! ### `_find_time_sections` -/

/-- One accepted time-section candidate. -/
structure Section where
  offset : Nat
  scanScore : Nat
  valid : Nat
  times : Nat
  stops : Nat
deriving Repr, DecidableEq

/-- The 30-word probe of `_find_time_sections` at `off`: a word is valid
iff its second byte is zero and its masked minute field is at most 1440;
the probe is accepted iff it sees at least 10 valid words, more than 5
distinct minutes and more than 3 distinct stop bytes. -/
def probe (d : Bytes) (off : Nat) : Option Section :=
  let idxs := (List.range 30).takeWhile (fun i => decide (off + 4*i + 3 < d.length))
  let valids := (idxs.map (fun i => u32le d (off + 4*i))).filter
    (fun v => v / 256 % 256 == 0 && decide (v / 65536 % 32768 ≤ 1440))
  let nValid := valids.length
  let nTimes := ((valids.map (fun v => v / 65536 % 32768)).dedup).length
  let nStops := ((valids.map (fun v => v % 256)).dedup).length
  if 10 ≤ nValid ∧ 5 < nTimes ∧ 3 < nStops then
    some ⟨off, nValid * nTimes * nStops, nValid, nTimes, nStops⟩
  else none

/-- The coarse probe starts of `_find_time_sections`:
`range(0x100, min(len, scan_limit), 0x400)`. -/
def probeStarts (d : Bytes) : List Nat :=
  let fs := d.length
  let scanLimit :=
    if fs < 1000000 then fs
    else if fs < 10000000 then 5000000
    else 20000000
  let stop := min d.length scanLimit
  List.range' 0x100 ((stop - 0x100 + 0x3FF) / 0x400) 0x400

/-- Stable descending insertion by `scan_score` (equal scores keep their
relative order, matching Python's stable `sort(..., reverse=True)`). -/
def insortDesc (x : Section) : List Section → List Section
  | [] => [x]
  | y :: r => if x.scanScore ≤ y.scanScore then y :: insortDesc x r else x :: y :: r

/-- Source: `_find_time_sections`: probe every start and alignment, then sort the
accepted candidates by `scan_score`, descending and stably. -/
def findTimeSections (d : Bytes) : List Section :=
  let cands := (probeStarts d).flatMap
    (fun s => (List.range 4).filterMap (fun al => probe d (s + al)))
  cands.foldl (fun acc x => insortDesc x acc) []

/-! ### `_decode_from_offset` -/

/-- The mutable state of the `_decode_from_offset` loop.  `current` holds
the current trip in reverse (most recent entry first). -/
structure LoopSt where
  trips : List Trip
  current : List Entry
  prev : Option Nat
  streak : Nat
deriving Repr, DecidableEq

/-- Trip-boundary handling: emit the current trip when it has at least
two entries, and reset the current trip and the same-minute streak
(`prev_minutes` is left untouched, as in the source). -/
def closeTrip (st : LoopSt) : LoopSt :=
  { st with
    trips := if 2 ≤ st.current.length then st.trips ++ [st.current.reverse] else st.trips,
    current := [], streak := 0 }

/-- The two trip-boundary checks of `_decode_from_offset` for an
accepted word with minute value `minutes`: a time regression or a forward
jump of more than 240 minutes closes the current trip.  (`prev_minutes`
is not modified by either check; the source runs the two checks in
sequence against the same unchanged `prev_minutes`, and their conditions
are mutually exclusive, so at most one close happens.) -/
def applyBoundaries (st : LoopSt) (minutes : Nat) : LoopSt :=
  match st.prev with
  | none => st
  | some p =>
    if minutes < p then closeTrip st
    else if p + 240 < minutes then closeTrip st
    else st

/-- One iteration of the `_decode_from_offset` loop on the word `val`. -/
def stepWord (nStops : Nat) (st : LoopSt) (val : Nat) : LoopSt :=
  let byte1 := val / 256 % 256
  if byte1 ≠ 0 then st
  else
    let minutes := val / 65536 % 32768
    let stopIdx := val % 256
    if 1440 < minutes then st
    else if nStops = 0 ∨ nStops ≤ stopIdx then st
    else
      let st2 := applyBoundaries st minutes
      if st2.current.head? = some (stopIdx, minutes) then
        { st2 with prev := some minutes }
      else if st2.prev = some minutes then
        -- `prev_minutes is not None and minutes == prev_minutes`
        if 3 < st2.streak + 1 then
          { st2 with streak := st2.streak + 1, prev := some minutes }
        else
          { st2 with streak := st2.streak + 1,
                     current := (stopIdx, minutes) :: st2.current,
                     prev := some minutes }
      else
        { st2 with streak := 1, current := (stopIdx, minutes) :: st2.current,
                   prev := some minutes }

/-- The 32-bit words visited by `_decode_from_offset`:
`range(start, min(start+50000, len) - 3, 4)`. -/
def wordsFrom (d : Bytes) (start : Nat) : List Nat :=
  let endPos := min (start + 50000) d.length
  (List.range ((endPos - start) / 4)).map (fun k => u32le d (start + 4*k))

/-- Source: `_decode_from_offset`: stream the words from `start`, applying the
delimitation rules, and flush a final trip of at least two entries. -/
def decodeFromOffset (d : Bytes) (stops : List Name) (start : Nat) : List Trip :=
  let st := (wordsFrom d start).foldl (stepWord stops.length) ⟨[], [], none, 0⟩
  st.trips ++ (if 2 ≤ st.current.length then [st.current.reverse] else [])

/-! ### `_score_trips` and `_decode_time_records_smart` -/

/-- Number of distinct stop indices of a trip (`len({stop for stop,_ in trip})`). -/
def distinctStops (t : Trip) : Nat := ((t.map Prod.fst).dedup).length

/-- Source: `_score_trips`; `none` is `float('-inf')` (no trip with at least two
distinct stops). -/
def scoreTrips (trips : List Trip) : Option ℚ :=
  if trips.isEmpty then none
  else
    let valid := trips.filter (fun t => 2 ≤ distinctStops t)
    let lengths := (valid.filter (fun t => ¬ t.isEmpty)).map List.length
    if lengths.isEmpty then none
    else
      let total : ℚ := (lengths.sum : ℚ)
      let uniq : Nat := ((valid.flatMap (fun t => t.map Prod.fst)).dedup).length
      let avgLen : ℚ := total / (lengths.length : ℚ)
      let longTrips : ℚ := ((lengths.filter (fun l => 6 ≤ l)).length : ℚ)
      let score : ℚ := total + (valid.length : ℚ) * 5 + (uniq : ℚ) * 2
        + avgLen * 3 + longTrips * 8
      let score := if avgLen < 22/10 then score - 120 else score
      let score := if uniq < 4 then score - 80 else score
      some score

/-- The per-candidate eligibility filter of `_decode_time_records_smart`:
a candidate is retained iff its decoded trip list is non-empty, passes the
"at least 2 trips, or a single trip of length ≥ 10" pre-filter, and has a
finite trip score. -/
def eligB (d : Bytes) (stops : List Name) (sec : Section) : Bool :=
  let trips := decodeFromOffset d stops sec.offset
  !trips.isEmpty &&
  !(decide (trips.length < 2 ∧ ¬(trips.length = 1 ∧ 10 ≤ (trips.headD []).length))) &&
  (scoreTrips trips).isSome

/-- One step of the candidate-selection fold of
`_decode_time_records_smart`. -/
def smartStep (d : Bytes) (stops : List Name)
    (best : Option (List Trip × Nat × ℚ)) (sec : Section) :
    Option (List Trip × Nat × ℚ) :=
  let trips := decodeFromOffset d stops sec.offset
  if trips.isEmpty then best
  else if trips.length < 2 ∧ ¬(trips.length = 1 ∧ 10 ≤ (trips.headD []).length) then best
  else match scoreTrips trips with
    | none => best
    | some ts =>
      let combined := ts + (sec.scanScore : ℚ) / 1000
      match best with
      | none => some (trips, sec.offset, combined)
      | some (_, _, bs) => if bs < combined then some (trips, sec.offset, combined) else best

/-- Source: `_decode_time_records_smart`: decode the top 16 section candidates,
score each, and keep the trip list with the best combined score. -/
def decodeTimeRecordsSmart (d : Bytes) (stops : List Name) :
    Option (List Trip × Nat) :=
  match ((findTimeSections d).take 16).foldl (smartStep d stops) none with
  | none => none
  | some (tr, off, _) => some (tr, off)

/-! ### `_filter_stops` -/

/-- Source: `is_bad_stop` (local to `_filter_stops`): empty or whitespace-only
names, `¤¤`-prefixed names, names containing `{L}`/`{l}`, short
`*`-prefixed alphabetic markers, service-text keywords, POI keywords. -/
def isBadStop (name : Name) : Bool :=
  name.isEmpty || (pyStrip name).isEmpty ||
  leadsWith "¤¤".data name ||
  containsSub "{L}".data name || containsSub "{l}".data name ||
  (name.head? == some '*' && decide (name.length ≤ 6) &&
    !(name.drop 1).isEmpty && (name.drop 1).all isAlphaCh) ||
  (SERVICE_TEXT_KEYWORDS.any (fun kw => containsSub kw (lowerName name))) ||
  (POI_KEYWORDS.any (fun kw => containsSub kw (lowerName name)))

/-- Is stop index `i` referenced by some entry of some trip? -/
def referencedB (trips : List Trip) (i : Nat) : Bool :=
  trips.any (fun t => t.any (fun e => e.1 == i))

/-- Position of `i` in a list (the old-to-new index map of
`_filter_stops` sends a surviving old index to the number of survivors
before it, i.e. to its position in the survivor list). -/
def idxInList (i : Nat) : List Nat → Option Nat
  | [] => none
  | j :: r => if j = i then some 0 else (idxInList i r).map (· + 1)

/-- The surviving `(old_index, name)` pairs of `_filter_stops`:
referenced by some trip and not matching a bad pattern. -/
def survivors (stops : List Name) (trips : List Trip) : List (Nat × Name) :=
  stops.enum.filter (fun p => referencedB trips p.1 && !isBadStop p.2)

/-- The old-to-new index map of `_filter_stops`: a surviving old index is
sent to the number of survivors before it, i.e. to its position in the
survivor list. -/
def o2nFn (stops : List Name) (trips : List Trip) (i : Nat) : Option Nat :=
  idxInList i ((survivors stops trips).map Prod.fst)

/-- Rewrite one trip through the old-to-new map, dropping entries whose
stop did not survive. -/
def remapTrip (f : Nat → Option Nat) (t : Trip) : Trip :=
  t.filterMap (fun e => (f e.1).map (fun j => (j, e.2)))

/-- Rewrite the trip list: remap each trip and drop trips falling under
two entries. -/
def remapTrips (f : Nat → Option Nat) (trips : List Trip) : List Trip :=
  trips.filterMap (fun t =>
    let nt := remapTrip f t
    if 2 ≤ nt.length then some nt else none)

/-- Rewrite the edge table: both endpoints must survive. -/
def remapEdges (f : Nat → Option Nat) (edges : Edges) : Edges :=
  edges.filterMap (fun ed =>
    match f ed.1.1, f ed.1.2 with
    | some a, some b => some ((a, b), ed.2)
    | _, _ => none)

/-- Source: `_filter_stops`: drop unreferenced and bad stops, then remap trips
(dropping entries of dropped stops and trips falling under 2 entries) and
edges (both endpoints must survive).  When nothing survives, or there are
no stops or no trips, the state is returned unchanged. -/
def filterStops (stops : List Name) (trips : List Trip) (edges : Edges) :
    List Name × List Trip × Edges :=
  if stops.isEmpty || trips.isEmpty then (stops, trips, edges)
  else
    let newStops := (survivors stops trips).map Prod.snd
    if newStops.isEmpty then (stops, trips, edges)
    else
      (newStops, remapTrips (o2nFn stops trips) trips,
       remapEdges (o2nFn stops trips) edges)

/-! ### `_extract_edges` -/

/-- Append a travel-time sample to an edge of the insertion-ordered edge
table (`dict` semantics: existing keys keep their position, new keys go
to the end). -/
def edgeAdd (es : Edges) (key : Nat × Nat) (t : Int) : Edges :=
  match es with
  | [] => [(key, [t])]
  | (k, ts) :: rest =>
    if k = key then (k, ts ++ [t]) :: rest else (k, ts) :: edgeAdd rest key t

/-- The edge samples contributed by one trip: each adjacent pair with
distinct stops and travel time in `[1, 60]`. -/
def tripEdges (es : Edges) (t : Trip) : Edges :=
  (t.zip t.tail).foldl
    (fun es p =>
      let tt : Int := (p.2.2 : Int) - (p.1.2 : Int)
      if p.1.1 = p.2.1 then es
      else if tt < 1 ∨ 60 < tt then es
      else edgeAdd es (p.1.1, p.2.1) tt)
    es

/-- Source: `_extract_edges` over all trips. -/
def extractEdges (es : Edges) (trips : List Trip) : Edges :=
  trips.foldl tripEdges es

/-! ### `decode` -/

/-- The decoder state surrendered to the caller on success. -/
structure DecState where
  stops : List Name
  pRecords : List Name
  trips : List Trip
  edges : Edges
  bestStopOffset : Option Nat
  bestTimeOffset : Option Nat
  stopQuality : ℚ
deriving Repr, DecidableEq

/-- Source: `TTDecoderV2.decode`: header check, stop table, P-records, smart
time-record decoding, stop scrubbing, then edge extraction.  `none` means
the decode failed (the method returned `False`). -/
def decode (d : Bytes) : Option DecState :=
  if ¬ verifyHeader d then none
  else match findStops d with
    | none => none
    | some (stops, soff, q) =>
      match decodeTimeRecordsSmart d stops with
      | none => none
      | some (tr, toff) =>
        some ⟨(filterStops stops tr []).1, findPRecords d,
              (filterStops stops tr []).2.1,
              extractEdges (filterStops stops tr []).2.2 (filterStops stops tr []).2.1,
              some soff, some toff, q⟩

/-! ### `get_stats` and `export_json` -/

/-- Round a rational half-to-even at `k` decimal places (Python's
`round(x, k)`). -/
def pyRound (q : ℚ) (k : Nat) : ℚ :=
  let m : ℚ := (10 ^ k : ℕ)
  let x := q * m
  let f : ℤ := Int.floor x
  let r := x - (f : ℚ)
  let n : ℤ :=
    if r < 1/2 then f
    else if 1/2 < r then f + 1
    else if f % 2 = 0 then f else f + 1
  (n : ℚ) / m

/-- Source: `get_stats`. -/
structure Stats where
  stops : Nat
  trips : Nat
  edges : Nat
  totalTravelTimes : Nat
  pRecords : Nat
  bestStopOffset : Option Nat
  bestTimeOffset : Option Nat
  stopQuality : ℚ
deriving Repr, DecidableEq

/-- Source: `get_stats`: summary counts of a decoder state. -/
def getStats (st : DecState) : Stats :=
  ⟨st.stops.length, st.trips.length, st.edges.length,
   (st.edges.map (fun e => e.2.length)).sum, st.pRecords.length,
   st.bestStopOffset, st.bestTimeOffset, pyRound st.stopQuality 2⟩

/-- Minimum of a travel-time list (`min(times)`; the decoder only calls
it on non-empty lists). -/
def listMin : List Int → Int
  | [] => 0
  | a :: r => r.foldl min a

/-- Maximum of a travel-time list. -/
def listMax : List Int → Int
  | [] => 0
  | a :: r => r.foldl max a

/-- One exported edge record. -/
structure EdgeOut where
  fromStop : Name
  toStop : Name
  travelTimeAvg : ℚ
  travelTimeMin : Int
  travelTimeMax : Int
  samples : Nat
deriving Repr, DecidableEq

/-- The full JSON-equivalent export record of `export_json`. -/
structure ExportData where
  sourceFile : Name
  stops : List Name
  trips : List Trip
  stats : Stats
  edges : List (Name × EdgeOut)
deriving Repr, DecidableEq

/-- The JSON object key of an edge: `f"{from_idx}->{to_idx}"`. -/
def edgeKey (a b : Nat) : Name :=
  Nat.toDigits 10 a ++ "->".data ++ Nat.toDigits 10 b

/-- Source: `export_json` (minus the file write): the structured record that is
serialised, in insertion order. -/
def exportData (st : DecState) (sourceFile : Name) : ExportData :=
  let edgesAvg := st.edges.map (fun ed =>
    let times := ed.2
    let avg : ℚ := ((times.sum : ℤ) : ℚ) / (times.length : ℚ)
    (edgeKey ed.1.1 ed.1.2,
     { fromStop := st.stops.getD ed.1.1 ("Stop#".data ++ Nat.toDigits 10 ed.1.1)
       toStop := st.stops.getD ed.1.2 ("Stop#".data ++ Nat.toDigits 10 ed.1.2)
       travelTimeAvg := pyRound avg 1
       travelTimeMin := listMin times
       travelTimeMax := listMax times
       samples := times.length }))
  ⟨sourceFile, st.stops, st.trips, getStats st, edgesAvg⟩

/-- One decode-and-export run on the input bytes and originating
filename: the observable output of the decoder. -/
def decodeExport (d : Bytes) (sourceFile : Name) : Option ExportData :=
  (decode d).map (fun st => exportData st sourceFile)

/-! ### Concrete input files

Hand-built `.tt` images used to evaluate the decoder on concrete data. -/

/-- Source: `n` zero bytes. -/
def zeros (n : Nat) : Bytes := List.replicate n 0

/-- Little-endian 32-bit encoding of `v`. -/
def w32 (v : Nat) : Bytes := [v % 256, v / 256 % 256, v / 65536 % 256, v / 16777216 % 256]

/-- The four bytes of one time record `(stop, minutes)`:
`stop | (minutes << 16)`. -/
def recW (stop minutes : Nat) : Bytes := w32 (stop + 65536 * minutes)

/-- ASCII bytes of a string. -/
def ascii (s : String) : Bytes := s.data.map Char.toNat

/-- A synthetic `.tt` image: valid header, an 11-name stop table at
offset 72 (index 2 is the service-text name `"jede x"`), and a time
section at offset 256 whose records produce four trips, among them one
with a single distinct stop, one whose middle entry references the bad
stop, and one whose only good reference dies with its trip. -/
def B1 : Bytes :=
  ascii "TT TimeTable CHAPS" ++ zeros 54 ++
  w32 48 ++ w32 12 ++
  ([0, 5, 10, 16, 21, 25, 29, 32, 35, 38, 41, 45].flatMap w32) ++
  w32 45 ++ w32 45 ++
  ascii "AlphaBravojede xDeltaFoxyEchoGolHatInkJayKilo" ++
  zeros 75 ++
  recW 0 10 ++ recW 1 15 ++ recW 3 5 ++ recW 3 8 ++ recW 0 300 ++
  recW 2 430 ++ recW 1 560 ++ recW 5 100 ++ recW 2 150 ++
  zeros 84

/-- The stop table encoded in `B1`. -/
def B1stops : List Name :=
  ["Alpha", "Bravo", "jede x", "Delta", "Foxy", "Echo",
   "Gol", "Hat", "Ink", "Jay", "Kilo"].map String.data

/-- A byte image whose only time-section candidate (offset 256) decodes
to a single trip of 6 records — non-empty, finite trip score, but
rejected by the "at least 2 trips or one trip of length ≥ 10"
pre-filter. -/
def B2 : Bytes :=
  zeros 256 ++
  recW 0 10 ++ recW 1 20 ++ recW 2 30 ++ recW 3 40 ++ recW 4 50 ++ recW 5 60 ++
  zeros 96

/-- A ten-name stop table used as decoder state for `B2` and `B4`. -/
def S10 : List Name :=
  ["Qa", "Qb", "Qc", "Qd", "Qe", "Qf", "Qg", "Qh", "Qi", "Qj"].map String.data

/-- The §8 "minimal synthetic" image: valid header, the 5-name stop-table
candidate `["A","B","C","D","E"]` at offset 72, and the words of the
single trip `(0,480),(1,485),(2,492),(3,500)` at offset 288. -/
def B3 : Bytes :=
  ascii "TT TimeTable CHAPS" ++ zeros 54 ++
  w32 24 ++ w32 6 ++
  ([0, 1, 2, 3, 4, 5].flatMap w32) ++
  w32 5 ++ w32 5 ++ ascii "ABCDE" ++
  zeros 171 ++
  recW 0 480 ++ recW 1 485 ++ recW 2 492 ++ recW 3 500 ++
  zeros 16

/-- The 5 names of `B3`'s stop table. -/
def fiveNames : List Name := ["A", "B", "C", "D", "E"].map String.data

/-- The word stream of §8 scenario 3: records
`(0,480),(1,485),(0,500),(1,506)`. -/
def B4 : Bytes := recW 0 480 ++ recW 1 485 ++ recW 0 500 ++ recW 1 506

/-- A two-name stop table for `B4`. -/
def S2 : List Name := ["Qa", "Qb"].map String.data

/-- A scrubber state: three stops, the middle one a service-text name;
the only trip referencing stop 0 also references the bad stop 1 and so
dies in the scrub, leaving stop 0 unreferenced after one pass. -/
def stops7 : List Name := ["Alpha", "jede x", "Bravo"].map String.data

/-- Trips for `stops7`: the first trip loses its bad entry and falls
under two entries; the second survives. -/
def trips7 : List Trip := [[(0, 10), (1, 15)], [(2, 20), (2, 25)]]

/-- A 300-name stop table whose two referenced stops are service-text
names, so that the scrubber's survivor set is empty and it skips. -/
def stops300 : List Name :=
  "jede a".data :: "jede b".data ::
    (List.range 298).map (fun i => 'Q' :: Nat.toDigits 10 i)

/-- A word stream referencing only stops 0 and 1. -/
def data10 : Bytes := recW 0 10 ++ recW 1 20

/-! ### Decidable checks of the claimed invariants at a decoder state -/

/-- Does every exported trip have at least 2 entries and at least 2
distinct stop indices? -/
def allTripsTwoDistinct (st : DecState) : Bool :=
  st.trips.all (fun t => decide (2 ≤ t.length) && decide (2 ≤ distinctStops t))

/-- Is every exported stop referenced by some exported trip, and free of
the bad patterns? -/
def stopsScrubbedOk (st : DecState) : Bool :=
  (List.range st.stops.length).all (fun i => referencedB st.trips i) &&
  st.stops.all (fun nm => !isBadStop nm)

/-- Does every adjacent pair of every exported trip move forward in time
by at most 240 minutes? -/
def allTripsBoundedSteps (st : DecState) : Bool :=
  st.trips.all (fun t => (t.zip t.tail).all
    (fun p => decide (p.1.2 ≤ p.2.2) && decide (p.2.2 ≤ p.1.2 + 240)))

/-! ### Invariant predicates for the trip-decoder loop -/

/-- A well-formed entry against a stop table of `n` names: the stop index
is in range (and, being a single byte, at most 255), the minute at most
1440. -/
def entryOkN (n : Nat) (e : Entry) : Prop := e.1 < n ∧ e.1 ≤ 255 ∧ e.2 ≤ 1440

/-- The adjacent-pair relation inside a decoded trip: minutes never
decrease and never jump forward by more than 240. -/
def stepOk (a b : Entry) : Prop := a.2 ≤ b.2 ∧ b.2 ≤ a.2 + 240

/-- A well-formed decoded trip: at least two entries, adjacent pairs
satisfy `stepOk`, all entries well-formed. -/
def goodTrip (n : Nat) (t : Trip) : Prop :=
  2 ≤ t.length ∧ t.Chain' stepOk ∧ ∀ e ∈ t, entryOkN n e

/-- The loop invariant of `_decode_from_offset`: all emitted trips are
well-formed; the (reversed) current trip satisfies the reversed chain
relation with well-formed entries; and whenever the current trip is
non-empty, `prev_minutes` holds the minute of its most recent entry. -/
def invSt (n : Nat) (st : LoopSt) : Prop :=
  (∀ t ∈ st.trips, goodTrip n t) ∧
  st.current.Chain' (flip stepOk) ∧
  (∀ e ∈ st.current, entryOkN n e) ∧
  (∀ e, st.current.head? = some e → st.prev = some e.2)

/-! ### The §4.2 layout conditions as stated by the specification -/

/-- Modelled from the spec's §4.2 layout checks at offset `off`:
`total_bytes = item_count*4`; `2 ≤ item_count ≤ 20000`; the string
offsets weakly increase; two equal positive `blob_size` words follow the
offset table; the last string offset equals `blob_size`; and the blob
lies within the file. -/
def stopLayoutSpec (d : Bytes) (off : Nat) : Prop :=
  u32le d off = u32le d (off+4) * 4 ∧
  2 ≤ u32le d (off+4) ∧ u32le d (off+4) ≤ 20000 ∧
  monoNondec (readOffs d off) = true ∧
  u32le d (off + 8 + u32le d off) = u32le d (off + 8 + u32le d off + 4) ∧
  0 < u32le d (off + 8 + u32le d off) ∧
  (readOffs d off).getLast? = some (u32le d (off + 8 + u32le d off)) ∧
  off + 8 + u32le d off + 8 + u32le d (off + 8 + u32le d off) ≤ d.length

/-- Modelled from the spec's §4.2 description of the extracted names:
`item_count − 1` strings, the `i`-th being the blob slice between string
offsets `i` and `i+1`, decoded as code page 1250 and stripped of trailing
NULs and surrounding whitespace. -/
def specStopNames (d : Bytes) (off : Nat) : List Name :=
  let offs := readOffs d off
  let blob := (d.drop (off + 8 + u32le d off + 8)).take (u32le d (off + 8 + u32le d off))
  (offs.zip offs.tail).map (fun p => decodeName ((blob.drop p.1).take (p.2 - p.1)))

/-! ### Concrete decoder outputs on the hand-built files -/

/-- The trip list selected by §4.6 on `B1` (at section offset 256). -/
def B1trips : List Trip :=
  [[(0, 10), (1, 15)], [(3, 5), (3, 8)], [(0, 300), (2, 430), (1, 560)],
   [(5, 100), (2, 150)]]

/-- The decoder state produced by `decode B1` (projected out of the
option; `decode B1` succeeds, so the default is never used).  Its stops
are `["Alpha","Bravo","Delta","Echo"]`, its trips
`[[(0,10),(1,15)], [(2,5),(2,8)], [(0,300),(1,560)]]`: the bad stop
`"jede x"` and the unreferenced stops are scrubbed, the trip referencing
it loses its middle entry, and the trip `[(5,100),(2,150)]` dies, leaving
`"Echo"` unreferenced. -/
def B1decoded : DecState := (decode B1).getD ⟨[], [], [], [], none, none, 0⟩

/-- A scrubber fixpoint state: both stops good and referenced, one trip
of two in-range entries, one in-range edge. -/
def stopsFix : List Name := ["Alpha", "Bravo"].map String.data

/-- The trip list of the fixpoint state. -/
def tripsFix : List Trip := [[(0, 10), (1, 15)]]

/-- The edge table of the fixpoint state. -/
def edgesFix : Edges := [((0, 1), [(5 : Int)])]

end TT

namespace TT

/-! ## Helper lemmas -/

/-- Fold preservation of an invariant. -/
theorem foldl_inv {σ : Type _} {α : Type _} {f : σ → α → σ} {P : σ → Prop}
    (h : ∀ s a, P s → P (f s a)) : ∀ (l : List α) (s : σ), P s → P (l.foldl f s)
  | [], _, hs => hs
  | a :: l, s, hs => foldl_inv h l (f s a) (h s a hs)

@[simp] theorem closeTrip_prev (st : LoopSt) : (closeTrip st).prev = st.prev := rfl

@[simp] theorem closeTrip_current (st : LoopSt) : (closeTrip st).current = [] := rfl

/-- Closing a trip preserves the loop invariant. -/
theorem closeTrip_inv {n : Nat} {st : LoopSt} (h : invSt n st) : invSt n (closeTrip st) := by
  obtain ⟨h1, h2, h3, _⟩ := h
  refine ⟨?_, List.chain'_nil, by simp, by simp⟩
  intro t ht
  simp only [closeTrip] at ht
  split at ht
  · rcases List.mem_append.mp ht with ht' | ht'
    · exact h1 t ht'
    · rcases List.mem_singleton.mp ht' with rfl
      refine ⟨by simpa using ‹2 ≤ st.current.length›, List.chain'_reverse.mpr h2, ?_⟩
      intro e he
      exact h3 e (List.mem_reverse.mp he)
  · exact h1 t ht

/-- The boundary phase preserves the invariant, leaves `prev_minutes`
unchanged, and either clears the current trip or leaves it unchanged
knowing that the new minute neither regresses nor jumps. -/
theorem applyBoundaries_spec {n : Nat} {st : LoopSt} {m : Nat} (h : invSt n st) :
    invSt n (applyBoundaries st m) ∧ (applyBoundaries st m).prev = st.prev ∧
    ((applyBoundaries st m).current = [] ∨
     ((applyBoundaries st m).current = st.current ∧
      ∀ p, st.prev = some p → p ≤ m ∧ m ≤ p + 240)) := by
  rcases hp : st.prev with _ | p
  · have heq : applyBoundaries st m = st := by simp [applyBoundaries, hp]
    rw [heq]
    exact ⟨h, hp, Or.inr ⟨rfl, fun q hq => by cases hq⟩⟩
  · by_cases h1 : m < p
    · have heq : applyBoundaries st m = closeTrip st := by
        simp [applyBoundaries, hp, h1]
      rw [heq]
      exact ⟨closeTrip_inv h, hp, Or.inl rfl⟩
    · by_cases h2 : p + 240 < m
      · have heq : applyBoundaries st m = closeTrip st := by
          simp [applyBoundaries, hp, h1, h2]
        rw [heq]
        exact ⟨closeTrip_inv h, hp, Or.inl rfl⟩
      · have heq : applyBoundaries st m = st := by
          simp [applyBoundaries, hp, h1, h2]
        rw [heq]
        refine ⟨h, hp, Or.inr ⟨rfl, fun q hq => ?_⟩⟩
        cases hq
        omega

/-- One loop step of `_decode_from_offset` preserves the invariant. -/
theorem stepWord_inv {n : Nat} {st : LoopSt} {val : Nat} (h : invSt n st) :
    invSt n (stepWord n st val) := by
  simp only [stepWord]
  by_cases hb : val / 256 % 256 ≠ 0
  · rw [if_pos hb]
    exact h
  rw [if_neg hb]
  by_cases h1440 : 1440 < val / 65536 % 32768
  · rw [if_pos h1440]
    exact h
  rw [if_neg h1440]
  by_cases hrange : n = 0 ∨ n ≤ val % 256
  · rw [if_pos hrange]
    exact h
  rw [if_neg hrange]
  set m := val / 65536 % 32768 with hm
  set s := val % 256 with hs
  set st2 := applyBoundaries st m with hst2
  obtain ⟨hinv2, hprev2, hcur2⟩ := applyBoundaries_spec (m := m) h
  obtain ⟨g1, g2, g3, g4⟩ := hinv2
  push_neg at hrange
  have hs255 : s ≤ 255 := by
    have : val % 256 < 256 := Nat.mod_lt val (by norm_num)
    omega
  have hentry : entryOkN n (s, m) := ⟨hrange.2, hs255, by omega⟩
  have happend : ∀ k : Nat,
      invSt n { st2 with streak := k, current := (s, m) :: st2.current, prev := some m } := by
    intro k
    refine ⟨g1, ?_, ?_, ?_⟩
    · rw [List.chain'_cons']
      refine ⟨?_, g2⟩
      intro y hy
      have hy' : st2.current.head? = some y := Option.mem_def.mp hy
      have hprevy := g4 y hy'
      rcases hcur2 with hnil | ⟨_, hbound⟩
      · rw [hnil] at hy'
        cases hy'
      · obtain ⟨hle, hjump⟩ := hbound y.2 (by rw [← hprev2]; exact hprevy)
        exact ⟨hle, hjump⟩
    · intro e he
      rcases List.mem_cons.mp he with rfl | he'
      · exact hentry
      · exact g3 e he'
    · intro e he
      rw [List.head?_cons] at he
      cases he
      rfl
  by_cases hdup : st2.current.head? = some (s, m)
  · rw [if_pos hdup]
    refine ⟨g1, g2, g3, ?_⟩
    intro e he
    rw [hdup] at he
    cases he
    rfl
  rw [if_neg hdup]
  by_cases hsame : st2.prev = some m
  · rw [if_pos hsame]
    by_cases hstreak : 3 < st2.streak + 1
    · rw [if_pos hstreak]
      refine ⟨g1, g2, g3, ?_⟩
      intro e he
      have he2 := g4 e he
      rw [hsame] at he2
      exact he2
    · rw [if_neg hstreak]
      exact happend (st2.streak + 1)
  · rw [if_neg hsame]
    exact happend 1

/-- Every trip produced by `_decode_from_offset` is well-formed: at least
two entries, weakly increasing minutes with steps of at most 240, and
in-range single-byte stop indices with minutes at most 1440. -/
theorem decodeFromOffset_good (d : Bytes) (stops : List Name) (start : Nat) :
    ∀ t ∈ decodeFromOffset d stops start, goodTrip stops.length t := by
  intro t ht
  have hinv : invSt stops.length
      ((wordsFrom d start).foldl (stepWord stops.length) ⟨[], [], none, 0⟩) := by
    refine foldl_inv (fun s a hs => stepWord_inv hs) _ _ ?_
    exact ⟨by simp, List.chain'_nil, by simp, by simp⟩
  obtain ⟨g1, g2, g3, _⟩ := hinv
  simp only [decodeFromOffset] at ht
  rcases List.mem_append.mp ht with ht' | ht'
  · exact g1 t ht'
  · split at ht'
    · rcases List.mem_singleton.mp ht' with rfl
      exact ⟨by simpa using ‹_›, List.chain'_reverse.mpr g2,
             fun e he => g3 e (List.mem_reverse.mp he)⟩
    · cases ht'

/-- One selection step either keeps the incumbent or switches to the
decode of the inspected section's offset. -/
theorem smartStep_cases (d : Bytes) (stops : List Name)
    (b : Option (List Trip × Nat × ℚ)) (sec : Section) :
    smartStep d stops b sec = b ∨
    ∃ sc, smartStep d stops b sec =
      some (decodeFromOffset d stops sec.offset, sec.offset, sc) := by
  simp only [smartStep]
  split_ifs with h1 h2
  · exact Or.inl rfl
  · exact Or.inl rfl
  · rcases hsc : scoreTrips (decodeFromOffset d stops sec.offset) with _ | ts
    · exact Or.inl rfl
    · rcases hb : b with _ | ⟨btr, boff, bsc⟩
      · exact Or.inr ⟨_, rfl⟩
      · simp only
        by_cases hlt : bsc < ts + (sec.scanScore : ℚ) / 1000
        · rw [if_pos hlt]
          exact Or.inr ⟨_, rfl⟩
        · rw [if_neg hlt]
          exact Or.inl rfl

/-- A selection fold starting from a state satisfying the transfer
property keeps it: any selected trip list is the decode of its offset. -/
theorem smart_fold_eq (d : Bytes) (stops : List Name) (l : List Section)
    (b : Option (List Trip × Nat × ℚ))
    (hb : ∀ tr off sc, b = some (tr, off, sc) → tr = decodeFromOffset d stops off) :
    ∀ tr off sc, l.foldl (smartStep d stops) b = some (tr, off, sc) →
      tr = decodeFromOffset d stops off := by
  refine foldl_inv (P := fun b => ∀ tr off sc, b = some (tr, off, sc) →
    tr = decodeFromOffset d stops off) ?_ l b hb
  intro b' sec hP tr off sc heq
  rcases smartStep_cases d stops b' sec with hcase | ⟨sc', hcase⟩
  · exact hP tr off sc (hcase ▸ heq)
  · rw [hcase] at heq
    cases heq
    rfl

/-- The trip list selected by `_decode_time_records_smart` is exactly the
decode of the selected offset. -/
theorem smart_some_eq {d : Bytes} {stops : List Name} {tr : List Trip} {off : Nat}
    (h : decodeTimeRecordsSmart d stops = some (tr, off)) :
    tr = decodeFromOffset d stops off := by
  unfold decodeTimeRecordsSmart at h
  rcases hres : ((findTimeSections d).take 16).foldl (smartStep d stops) none with
    _ | ⟨tr', off', sc⟩
  · rw [hres] at h
    cases h
  · rw [hres] at h
    cases h
    exact smart_fold_eq d stops _ none (by intro a b c hc; cases hc) _ _ sc hres

/-- Source: `_filter_stops` either skips (returning the state unchanged) or
performs the full rewrite. -/
theorem filterStops_skip_or (s : List Name) (t : List Trip) (e : Edges) :
    filterStops s t e = (s, t, e) ∨
    ((survivors s t).map Prod.snd ≠ [] ∧
     filterStops s t e =
      ((survivors s t).map Prod.snd, remapTrips (o2nFn s t) t,
       remapEdges (o2nFn s t) e)) := by
  simp only [filterStops]
  split_ifs with h1 h2
  · exact Or.inl rfl
  · exact Or.inl rfl
  · exact Or.inr ⟨by simpa using h2, rfl⟩

/-- Members of a rewritten trip list: each has at least two entries and
is the remap of an original trip. -/
theorem remapTrips_mem {f : Nat → Option Nat} {trips : List Trip} {t' : Trip}
    (h : t' ∈ remapTrips f trips) :
    2 ≤ t'.length ∧ ∃ t0 ∈ trips, t' = remapTrip f t0 := by
  obtain ⟨t0, ht0, heq⟩ := List.mem_filterMap.mp h
  simp only at heq
  split_ifs at heq with hlen
  · cases heq
    exact ⟨hlen, t0, ht0, rfl⟩

/-- The minute components of a remapped trip form a sublist of the minute
components of the original trip. -/
theorem remapTrip_snd_sublist (f : Nat → Option Nat) (t : Trip) :
    ((remapTrip f t).map Prod.snd).Sublist (t.map Prod.snd) := by
  induction t with
  | nil => simp [remapTrip]
  | cons e t ih =>
    rcases hf : f e.1 with _ | j
    · simp only [remapTrip, List.filterMap_cons, hf, List.map_cons]
      exact (ih).cons e.2
    · simp only [remapTrip, List.filterMap_cons, hf, Option.map_some', List.map_cons]
      exact (ih).cons₂ e.2

/-- Remapping preserves weak monotonicity of the minutes. -/
theorem remapTrip_mono {f : Nat → Option Nat} {t : Trip}
    (h : t.Chain' stepOk) :
    (remapTrip f t).Chain' (fun a b : Entry => a.2 ≤ b.2) := by
  have h1 : (t.map Prod.snd).Chain' (· ≤ ·) :=
    (List.chain'_map Prod.snd).mpr (h.imp (fun a b hab => hab.1))
  have h2 : (t.map Prod.snd).Pairwise (· ≤ ·) := List.chain'_iff_pairwise.mp h1
  have h3 : ((remapTrip f t).map Prod.snd).Pairwise (· ≤ ·) :=
    h2.sublist (remapTrip_snd_sublist f t)
  exact (List.chain'_map Prod.snd).mp h3.chain'

/-- Successful decodes factor through `_find_stops`,
`_decode_time_records_smart`, `_filter_stops` and `_extract_edges`. -/
theorem decode_some_shape {d : Bytes} {st : DecState} (h : decode d = some st) :
    ∃ stops soff q tr toff, findStops d = some (stops, soff, q) ∧
      decodeTimeRecordsSmart d stops = some (tr, toff) ∧
      st.stops = (filterStops stops tr []).1 ∧
      st.trips = (filterStops stops tr []).2.1 ∧
      st.edges = extractEdges (filterStops stops tr []).2.2 (filterStops stops tr []).2.1 := by
  unfold decode at h
  by_cases hv : ¬ verifyHeader d = true
  · rw [if_pos hv] at h
    cases h
  · rw [if_neg hv] at h
    rcases hfs : findStops d with _ | ⟨stops, soff, q⟩
    · rw [hfs] at h
      injection h
    · rw [hfs] at h
      rcases hsm : decodeTimeRecordsSmart d stops with _ | ⟨tr, toff⟩
      · simp only [hsm] at h
        cases h
      · simp only [hsm, Option.some.injEq] at h
        subst h
        exact ⟨stops, soff, q, tr, toff, rfl, hsm, rfl, rfl, rfl⟩

/-- A `filterMap` whose function is `some` on every member is the
identity. -/
theorem filterMap_id_of {α : Type _} {f : α → Option α} :
    ∀ {l : List α}, (∀ x ∈ l, f x = some x) → l.filterMap f = l
  | [], _ => rfl
  | a :: l, h => by
    rw [List.filterMap_cons, h a (List.mem_cons_self a l),
        filterMap_id_of (fun x hx => h x (List.mem_cons_of_mem a hx))]

/-- Position of `i` in `range' s cnt`. -/
theorem idxInList_range' :
    ∀ (cnt s i : Nat), s ≤ i → i < s + cnt →
      idxInList i (List.range' s cnt) = some (i - s) := by
  intro cnt
  induction cnt with
  | zero => intro s i h1 h2; omega
  | succ cnt ih =>
    intro s i h1 h2
    rw [List.range'_succ]
    by_cases hsi : s = i
    · simp [idxInList, hsi]
    · have : idxInList i (List.range' (s+1) cnt) = some (i - (s+1)) :=
        ih (s+1) i (by omega) (by omega)
      simp only [idxInList, if_neg hsi, this, Option.map_some']
      congr 1
      omega

/-- Position of `i` in `range n` is `i`. -/
theorem idxInList_range {n i : Nat} (hi : i < n) :
    idxInList i (List.range n) = some i := by
  rw [List.range_eq_range']
  simpa using idxInList_range' n 0 i (Nat.zero_le i) (by omega)

/-- If every trip entry has a single-byte stop index, so does every
referenced index. -/
theorem referencedB_bound {trips : List Trip} {i : Nat}
    (h : ∀ t ∈ trips, ∀ e ∈ t, e.1 ≤ 255)
    (href : referencedB trips i = true) : i ≤ 255 := by
  obtain ⟨t, ht, ht2⟩ := List.any_eq_true.mp href
  obtain ⟨e, he, he2⟩ := List.any_eq_true.mp ht2
  have : e.1 = i := by simpa using he2
  exact this ▸ h t ht e he

/-- C1 (amended): every trip of the §4.6-selected trip list, and every
trip exported after the §4.7 scrub, has at least 2 entries.  (The claim's
"at least 2 distinct stop indices" part fails; see the counterexample.) -/
theorem c1_trip_lengths :
    (∀ (d : Bytes) (stops : List Name) (tr : List Trip) (off : Nat),
        decodeTimeRecordsSmart d stops = some (tr, off) → ∀ t ∈ tr, 2 ≤ t.length) ∧
    (∀ (d : Bytes) (st : DecState), decode d = some st → ∀ t ∈ st.trips, 2 ≤ t.length) := by
  have part1 : ∀ (d : Bytes) (stops : List Name) (tr : List Trip) (off : Nat),
      decodeTimeRecordsSmart d stops = some (tr, off) → ∀ t ∈ tr, 2 ≤ t.length := by
    intro d stops tr off h t ht
    rw [smart_some_eq h] at ht
    exact (decodeFromOffset_good d stops off t ht).1
  refine ⟨part1, ?_⟩
  intro d st h t ht
  obtain ⟨stops, soff, q, tr, toff, hfs, hsm, hstops, htrips, hedges⟩ := decode_some_shape h
  rw [htrips] at ht
  rcases filterStops_skip_or stops tr [] with hcase | ⟨hne, hcase⟩
  · rw [hcase] at ht
    exact part1 d stops tr toff hsm t ht
  · rw [hcase] at ht
    exact (remapTrips_mem ht).1

/-- C5 (amended): within every trip of the §4.6-selected list, adjacent
minutes are weakly increasing with forward steps of at most 240; after
the §4.7 scrub only the weak monotonicity survives (dropping a scrubbed
middle entry can merge two steps into one longer than 240; see the
counterexample). -/
theorem c5_monotone_steps :
    (∀ (d : Bytes) (stops : List Name) (tr : List Trip) (off : Nat),
        decodeTimeRecordsSmart d stops = some (tr, off) →
        ∀ t ∈ tr, t.Chain' stepOk) ∧
    (∀ (d : Bytes) (st : DecState), decode d = some st →
        ∀ t ∈ st.trips, t.Chain' (fun a b : Entry => a.2 ≤ b.2)) := by
  have part1 : ∀ (d : Bytes) (stops : List Name) (tr : List Trip) (off : Nat),
      decodeTimeRecordsSmart d stops = some (tr, off) → ∀ t ∈ tr, t.Chain' stepOk := by
    intro d stops tr off h t ht
    rw [smart_some_eq h] at ht
    exact (decodeFromOffset_good d stops off t ht).2.1
  refine ⟨part1, ?_⟩
  intro d st h t ht
  obtain ⟨stops, soff, q, tr, toff, hfs, hsm, hstops, htrips, hedges⟩ := decode_some_shape h
  rw [htrips] at ht
  rcases filterStops_skip_or stops tr [] with hcase | ⟨hne, hcase⟩
  · rw [hcase] at ht
    exact (part1 d stops tr toff hsm t ht).imp (fun a b hab => hab.1)
  · rw [hcase] at ht
    obtain ⟨_, t0, ht0, rfl⟩ := remapTrips_mem ht
    exact remapTrip_mono (part1 d stops tr toff hsm t0 ht0)

/-- C2 (amended): when the §4.7 scrub actually rewrites the state (it did
not skip), every surviving stop name is free of the bad patterns and was
referenced by some pre-scrub trip.  (Being referenced by a *final* trip
can fail — the referencing trip may itself be dropped —, and when the
scrub skips, bad names survive; see the counterexample.) -/
theorem c2_scrubbed_stop_names :
    ∀ (stops : List Name) (trips : List Trip) (edges : Edges),
      (filterStops stops trips edges).1 = stops ∨
      ∀ nm ∈ (filterStops stops trips edges).1,
        isBadStop nm = false ∧
        ∃ i, referencedB trips i = true ∧
          ∃ h : i < stops.length, stops.get ⟨i, h⟩ = nm := by
  intro stops trips edges
  rcases filterStops_skip_or stops trips edges with hcase | ⟨hne, hcase⟩
  · left
    rw [hcase]
  · right
    intro nm hnm
    rw [hcase] at hnm
    obtain ⟨⟨i, nm'⟩, hmem, heq⟩ := List.mem_map.mp hnm
    simp only at heq
    subst heq
    obtain ⟨henum, hpred⟩ := List.mem_filter.mp hmem
    rw [Bool.and_eq_true] at hpred
    obtain ⟨href, hbad⟩ := hpred
    obtain ⟨hi, hget⟩ := List.mem_enum henum
    refine ⟨by simpa using hbad, i, href, hi, ?_⟩
    exact hget.symm

/-- C10 (amended): every entry of every §4.5-decoded trip has a
single-byte stop index that is also within the stop table; consequently,
whenever the §4.7 scrub rewrites the state, at most 256 stops survive —
but when it skips (no referenced stop passes the bad-name filter), the
full stop table, including indices ≥ 256, is preserved (see the
counterexample). -/
theorem c10_byte_stop_indices :
    (∀ (d : Bytes) (stops : List Name) (off : Nat),
        ∀ t ∈ decodeFromOffset d stops off, ∀ e ∈ t, e.1 ≤ 255 ∧ e.1 < stops.length) ∧
    (∀ (stops : List Name) (trips : List Trip) (edges : Edges),
        (∀ t ∈ trips, ∀ e ∈ t, e.1 ≤ 255) →
        (filterStops stops trips edges).1 = stops ∨
        (filterStops stops trips edges).1.length ≤ 256) := by
  constructor
  · intro d stops off t ht e he
    have := (decodeFromOffset_good d stops off t ht).2.2 e he
    exact ⟨this.2.1, this.1⟩
  · intro stops trips edges hbyte
    rcases filterStops_skip_or stops trips edges with hcase | ⟨hne, hcase⟩
    · left
      rw [hcase]
    · right
      rw [hcase]
      have hsub : ((survivors stops trips).map Prod.fst).Sublist (List.range stops.length) := by
        rw [← List.enum_map_fst stops]
        exact (List.filter_sublist _).map _
      have hnd : ((survivors stops trips).map Prod.fst).Nodup :=
        hsub.nodup (List.nodup_range _)
      have hlt : ∀ i ∈ (survivors stops trips).map Prod.fst, i < 256 := by
        intro i hi
        obtain ⟨⟨i', nm⟩, hmem, heq⟩ := List.mem_map.mp hi
        subst heq
        obtain ⟨_, hpred⟩ := List.mem_filter.mp hmem
        rw [Bool.and_eq_true] at hpred
        have := referencedB_bound hbyte hpred.1
        omega
      have hfin : ((survivors stops trips).map Prod.fst).toFinset ⊆ Finset.range 256 := by
        intro i hi
        exact Finset.mem_range.mpr (hlt i (List.mem_toFinset.mp hi))
      have hcard := Finset.card_le_card hfin
      rw [List.toFinset_card_of_nodup hnd, Finset.card_range] at hcard
      calc ((survivors stops trips).map Prod.snd).length
          = ((survivors stops trips).map Prod.fst).length := by
            rw [List.length_map, List.length_map]
        _ ≤ 256 := hcard

/-- A selection step on an ineligible section keeps the incumbent. -/
theorem smartStep_none_iff (d : Bytes) (stops : List Name) (sec : Section) :
    smartStep d stops none sec = none ↔ eligB d stops sec = false := by
  simp only [smartStep, eligB]
  by_cases h1 : (decodeFromOffset d stops sec.offset).isEmpty = true
  · rw [if_pos h1]
    simp [h1]
  · rw [if_neg h1]
    by_cases h2 : (decodeFromOffset d stops sec.offset).length < 2 ∧
        ¬((decodeFromOffset d stops sec.offset).length = 1 ∧
          10 ≤ ((decodeFromOffset d stops sec.offset).headD []).length)
    · rw [if_pos h2]
      have hd : decide ((decodeFromOffset d stops sec.offset).length < 2 ∧
          ¬((decodeFromOffset d stops sec.offset).length = 1 ∧
            10 ≤ ((decodeFromOffset d stops sec.offset).headD []).length)) = true :=
        decide_eq_true h2
      rw [hd]
      simp
    · rw [if_neg h2]
      rcases hsc : scoreTrips (decodeFromOffset d stops sec.offset) with _ | ts
      · simp
      · constructor
        · intro hcontra
          injection hcontra
        · intro hbool
          exfalso
          have hd : decide ((decodeFromOffset d stops sec.offset).length < 2 ∧
              ¬((decodeFromOffset d stops sec.offset).length = 1 ∧
                10 ≤ ((decodeFromOffset d stops sec.offset).headD []).length)) = false :=
            decide_eq_false h2
          rw [hd] at hbool
          simp [h1] at hbool

/-- A selection step never drops an incumbent. -/
theorem smartStep_isSome {d : Bytes} {stops : List Name}
    {b : Option (List Trip × Nat × ℚ)} (sec : Section) (hb : b.isSome = true) :
    (smartStep d stops b sec).isSome = true := by
  rcases smartStep_cases d stops b sec with hcase | ⟨sc, hcase⟩ <;>
    rw [hcase]
  · exact hb
  · rfl

/-- The selection fold over a candidate list yields nothing iff every
candidate is ineligible. -/
theorem smart_fold_none_iff (d : Bytes) (stops : List Name) :
    ∀ l : List Section,
      l.foldl (smartStep d stops) none = none ↔ ∀ sec ∈ l, eligB d stops sec = false := by
  intro l
  induction l with
  | nil => simp
  | cons x xs ih =>
    rw [List.foldl_cons]
    by_cases hx : eligB d stops x = false
    · rw [(smartStep_none_iff d stops x).mpr hx]
      rw [ih]
      simp [hx]
    · have hsome : (smartStep d stops none x).isSome = true := by
        rcases h : smartStep d stops none x with _ | v
        · exact absurd ((smartStep_none_iff d stops x).mp h) hx
        · rfl
      have : (xs.foldl (smartStep d stops) (smartStep d stops none x)).isSome = true :=
        foldl_inv (P := fun (b : Option (List Trip × Nat × ℚ)) => b.isSome = true)
          (fun s a hs => smartStep_isSome a hs) xs _ hsome
      constructor
      · intro hnone
        rw [hnone] at this
        cases this
      · intro hall
        exact absurd (hall x (List.mem_cons_self x xs)) hx

/-- C3 (amended): `_decode_time_records_smart` fails iff every one of the
top-16 time-section candidates is ineligible: its trip list is empty,
or it fails the "≥ 2 trips, or one trip of length ≥ 10" pre-filter, or
its trip score is −∞.  (The claim's version — failure iff every
candidate has trip score −∞ — is refuted by the counterexample: a
candidate with a finite score can still be rejected by the pre-filter.) -/
theorem c3_notrips_iff :
    ∀ (d : Bytes) (stops : List Name),
      decodeTimeRecordsSmart d stops = none ↔
      ∀ sec ∈ (findTimeSections d).take 16, eligB d stops sec = false := by
  intro d stops
  rw [← smart_fold_none_iff d stops ((findTimeSections d).take 16)]
  unfold decodeTimeRecordsSmart
  rcases hres : ((findTimeSections d).take 16).foldl (smartStep d stops) none with
    _ | ⟨tr, off, sc⟩ <;> simp

/-- C7 (amended): the §4.7 scrubber is a no-op on any state in which
every stop is referenced by some trip and free of the bad patterns, every
trip has at least two entries with in-range stop indices, and every edge
has in-range endpoints.  (On general states the scrubber is *not*
idempotent: a first pass can drop a trip and thereby strand a stop it had
kept, which a second pass then removes — see the counterexample.) -/
theorem c7_scrub_fixpoint (stops : List Name) (trips : List Trip) (edges : Edges)
    (h1 : ∀ i < stops.length, referencedB trips i = true)
    (h2 : ∀ nm ∈ stops, isBadStop nm = false)
    (h3 : ∀ t ∈ trips, 2 ≤ t.length ∧ ∀ e ∈ t, e.1 < stops.length)
    (h4 : ∀ ed ∈ edges, ed.1.1 < stops.length ∧ ed.1.2 < stops.length) :
    filterStops stops trips edges = (stops, trips, edges) := by
  by_cases hse : (stops.isEmpty || trips.isEmpty) = true
  · simp only [filterStops]
    rw [if_pos hse]
  · have hsurv : survivors stops trips = stops.enum := by
      unfold survivors
      apply List.filter_eq_self.mpr
      intro p hp
      obtain ⟨i, nm⟩ := p
      obtain ⟨hi, hnm⟩ := List.mem_enum hp
      rw [Bool.and_eq_true]
      constructor
      · exact h1 i hi
      · rw [Bool.not_eq_true']
        exact h2 nm (by rw [hnm]; exact List.getElem_mem hi)
    have hnewstops : (survivors stops trips).map Prod.snd = stops := by
      rw [hsurv, List.enum_map_snd]
    have ho2n : ∀ i, i < stops.length → o2nFn stops trips i = some i := by
      intro i hi
      unfold o2nFn
      rw [hsurv, List.enum_map_fst]
      exact idxInList_range hi
    have htrip : remapTrips (o2nFn stops trips) trips = trips := by
      apply filterMap_id_of
      intro t ht
      have hrt : remapTrip (o2nFn stops trips) t = t := by
        apply filterMap_id_of
        intro e he
        rw [ho2n e.1 ((h3 t ht).2 e he)]
        simp
      simp only [hrt, if_pos ((h3 t ht).1)]
    have hedges : remapEdges (o2nFn stops trips) edges = edges := by
      apply filterMap_id_of
      intro ed hed
      rw [ho2n ed.1.1 (h4 ed hed).1, ho2n ed.1.2 (h4 ed hed).2]
    simp only [filterStops]
    rw [if_neg hse, hnewstops]
    have hstops : stops.isEmpty = false := by
      rcases Bool.or_eq_false_iff.mp (Bool.eq_false_iff.mpr hse) with ⟨ha, _⟩
      exact ha
    rw [if_neg (by rw [hstops]; exact Bool.false_ne_true), htrip, hedges]

/-- In a weakly increasing offset list, every element is bounded by the
last one. -/
theorem mono_all_le :
    ∀ {offs : List Nat} {b : Nat}, monoNondec offs = true →
      offs.getLast? = some b → ∀ x ∈ offs, x ≤ b
  | [], _, _, hl, _, hx => by cases hl
  | [a], b, _, hl, x, hx => by
    rcases List.mem_singleton.mp hx with rfl
    cases hl
    exact Nat.le_refl x
  | a :: a' :: r, b, hm, hl, x, hx => by
    rw [monoNondec, Bool.and_eq_true, decide_eq_true_eq] at hm
    have hl' : (a' :: r).getLast? = some b := by
      rw [← hl]
      exact List.getLast?_cons_cons.symm
    rcases List.mem_cons.mp hx with rfl | hx'
    · exact Nat.le_trans hm.1
        (mono_all_le hm.2 hl' a' (List.mem_cons_self a' r))
    · exact mono_all_le hm.2 hl' x hx'

/-- Under weak monotonicity with all offsets bounded by the blob size,
the name builder succeeds and returns exactly the per-pair decoded
slices. -/
theorem buildNames_eq (blob : Bytes) (bs : Nat) :
    ∀ offs : List Nat, monoNondec offs = true → (∀ x ∈ offs, x ≤ bs) →
      buildNames blob bs offs =
        some ((offs.zip offs.tail).map
          (fun p => decodeName ((blob.drop p.1).take (p.2 - p.1))))
  | [], _, _ => rfl
  | [_], _, _ => rfl
  | a :: a' :: r, hm, hle => by
    rw [monoNondec, Bool.and_eq_true, decide_eq_true_eq] at hm
    have hcond : ¬(a' < a ∨ bs < a') := by
      have := hle a' (List.mem_cons_of_mem a (List.mem_cons_self a' r))
      omega
    rw [buildNames, if_neg hcond,
        buildNames_eq blob bs (a' :: r) hm.2
          (fun x hx => hle x (List.mem_cons_of_mem a hx))]
    rfl

/-- The spec-side name list has exactly `item_count − 1` entries. -/
theorem specStopNames_length (d : Bytes) (off : Nat) :
    (specStopNames d off).length = u32le d (off+4) - 1 := by
  simp only [specStopNames, List.length_map, List.length_zip, readOffs,
             List.length_tail, List.length_range]
  omega

/-- A successful extraction implies the claimed layout conditions and the
claimed name list. -/
theorem extract_spec_of_some {d : Bytes} {off : Nat} {names : List Name}
    (h : extractStopCandidate d off = some names) :
    stopLayoutSpec d off ∧ names = specStopNames d off := by
  simp only [extractStopCandidate] at h
  split_ifs at h with h1 h2 h3 h4 h5 h6 h7 h8
  rw [not_or] at h3 h6
  have hlast : (readOffs d off).getLast? = some (u32le d (off + 8 + u32le d off)) :=
    not_not.mp h7
  have hle : ∀ x ∈ readOffs d off, x ≤ u32le d (off + 8 + u32le d off) :=
    mono_all_le h5 hlast
  rw [buildNames_eq _ _ _ h5 hle] at h
  injection h with h9
  refine ⟨⟨not_ne_iff.mp h2, by omega, by omega, h5, ?_, by omega, hlast, by omega⟩, ?_⟩
  · have := h6.1
    omega
  · rw [← h9]
    rfl

/-- The claimed layout conditions imply a successful extraction of the
claimed name list. -/
theorem extract_eq_of_spec {d : Bytes} {off : Nat} (h : stopLayoutSpec d off) :
    extractStopCandidate d off = some (specStopNames d off) := by
  obtain ⟨htotal, hcnt2, hcnt20k, hmono, hbseq, hbspos, hlast, hblob⟩ := h
  have hle : ∀ x ∈ readOffs d off, x ≤ u32le d (off + 8 + u32le d off) :=
    mono_all_le hmono hlast
  simp only [extractStopCandidate]
  rw [if_neg (by omega), if_neg (by omega), if_neg (by omega),
      if_neg (by omega), if_neg (not_not.mpr hmono), if_neg (by omega),
      if_neg (not_not.mpr hlast), if_neg (by omega),
      buildNames_eq _ _ _ hmono hle]
  rfl

/-- C8: `_extract_stop_candidate` returns a name list iff every §4.2
layout check of the specification holds at the offset, and the returned
list has exactly `item_count − 1` names, each the blob slice between
consecutive string offsets decoded as code page 1250 and stripped of
trailing NULs and surrounding whitespace. -/
theorem c8_stop_candidate_layout :
    ∀ (d : Bytes) (off : Nat),
      ((extractStopCandidate d off).isSome = true ↔ stopLayoutSpec d off) ∧
      (∀ names, extractStopCandidate d off = some names →
        names.length = u32le d (off+4) - 1 ∧ names = specStopNames d off) := by
  intro d off
  constructor
  · constructor
    · intro hs
      obtain ⟨names, hnames⟩ := Option.isSome_iff_exists.mp hs
      exact (extract_spec_of_some hnames).1
    · intro hspec
      rw [extract_eq_of_spec hspec]
      rfl
  · intro names hnames
    have h2 := (extract_spec_of_some hnames).2
    exact ⟨by rw [h2, specStopNames_length], h2⟩

/-! ## Concrete evaluations (shared) -/

set_option maxRecDepth 400000 in
set_option maxHeartbeats 4000000 in
/-- Source: `B1` decodes successfully. -/
theorem decode_B1_isSome : (decode B1).isSome = true := by decide

/-- The decode of `B1`, as an option equation. -/
theorem decode_B1_eq : decode B1 = some B1decoded := by
  rcases ho : decode B1 with _ | st
  · have h := decode_B1_isSome
    rw [ho] at h
    cases h
  · simp only [B1decoded, ho, Option.getD_some]

set_option maxRecDepth 400000 in
set_option maxHeartbeats 4000000 in
/-- The §4.6 selection on `B1` with its stop table, evaluated. -/
theorem smart_B1_eq : decodeTimeRecordsSmart B1 B1stops = some (B1trips, 256) := by
  decide

set_option maxRecDepth 400000 in
set_option maxHeartbeats 4000000 in
/-- Source: `B3` (the §8 minimal synthetic) fails to decode. -/
theorem decode_B3_none : decode B3 = none := by decide

set_option maxRecDepth 400000 in
set_option maxHeartbeats 4000000 in
/-- Source: `_find_stops` rejects `B3`: its only candidate has 5 names, below the
10-name minimum. -/
theorem findStops_B3_none : findStops B3 = none := by decide

/-! ## Claim theorems: counterexamples, remaining claims, witnesses -/

set_option maxRecDepth 400000 in
/-- C1 (counterexample): `decode B1` succeeds, yet its exported trip list
contains the trip `[(2,5),(2,8)]` with only one distinct stop index, so
"every trip has ≥ 2 distinct stop indices" fails. -/
theorem c1_counterexample : (decode B1).map allTripsTwoDistinct = some false := by
  rw [decode_B1_eq]
  decide

set_option maxRecDepth 400000 in
/-- C2 (counterexample): after the scrub of `decode B1`, the stop
`"Echo"` (index 3) is in the final stops list but referenced by no final
trip — its only referencing trip was dropped by the scrub. -/
theorem c2_counterexample : (decode B1).map stopsScrubbedOk = some false := by
  rw [decode_B1_eq]
  decide

set_option maxRecDepth 400000 in
/-- C5 (counterexample): after the scrub of `decode B1`, the trip
`[(0,300),(1,560)]` steps forward by 260 > 240 minutes (the scrub dropped
the middle entry `(2,430)`). -/
theorem c5_counterexample : (decode B1).map allTripsBoundedSteps = some false := by
  rw [decode_B1_eq]
  decide

set_option maxRecDepth 400000 in
set_option maxHeartbeats 4000000 in
/-- C3 (counterexample): on `B2`, `_decode_time_records_smart` fails even
though a top-16 candidate (offset 256) has a finite trip score — its
single 6-record trip is rejected by the pre-filter, which the claim's
"iff every candidate has trip score −∞" does not account for. -/
theorem c3_counterexample :
    decodeTimeRecordsSmart B2 S10 = none ∧
    ((findTimeSections B2).take 16).any
      (fun sec => (scoreTrips (decodeFromOffset B2 S10 sec.offset)).isSome) = true := by
  constructor <;> decide

set_option maxRecDepth 400000 in
set_option maxHeartbeats 4000000 in
/-- C4 (counterexample): `B3` is exactly the §8 minimal-synthetic input —
valid header, the 5-name candidate `["A","B","C","D","E"]` at offset
72 ≥ 0x40, and a time section at offset 288 > 0x100 whose words decode to
the single expected trip — yet the decode fails instead of producing the
expected stops, trip and edges. -/
theorem c4_counterexample :
    verifyHeader B3 = true ∧
    extractStopCandidate B3 72 = some fiveNames ∧
    decodeFromOffset B3 fiveNames 288 = [[(0, 480), (1, 485), (2, 492), (3, 500)]] ∧
    decode B3 = none :=
  ⟨by decide, by decide, by decide, decode_B3_none⟩

set_option maxRecDepth 400000 in
/-- C4 (amended): on the §8 minimal-synthetic input the decode *fails*
with `NoStopTable`: the only stop-table candidate has 5 names, below the
≥ 10-name acceptance minimum of §4.2, so no stops, trips or edges are
produced. -/
theorem c4_minimal_synthetic :
    verifyHeader B3 = true ∧
    extractStopCandidate B3 72 = some fiveNames ∧
    findStops B3 = none ∧ decode B3 = none :=
  ⟨by decide, by decide, findStops_B3_none, decode_B3_none⟩

set_option maxRecDepth 400000 in
/-- C6 (counterexample): the §4.5 decoder run over the word stream
`(0,480),(1,485),(0,500),(1,506)` does *not* produce the two claimed
trips: the minute sequence never regresses (500 > 485), so no boundary is
detected. -/
theorem c6_counterexample :
    decodeFromOffset B4 S2 0 ≠ [[(0, 480), (1, 485)], [(0, 500), (1, 506)]] := by
  decide

set_option maxRecDepth 400000 in
/-- C6 (amended): the §4.5 decoder over the word stream
`(0,480),(1,485),(0,500),(1,506)` with a 2-stop table produces exactly
one trip containing all four records — a trip boundary needs a minute
regression (or a >240 jump), and a mere stop-index regression is not
one. -/
theorem c6_no_regression_single_trip :
    decodeFromOffset B4 S2 0 = [[(0, 480), (1, 485), (0, 500), (1, 506)]] := by
  decide

set_option maxRecDepth 400000 in
/-- C7 (counterexample): the scrubber is not idempotent: on
`(stops7, trips7, [])` the first pass keeps `"Alpha"` (referenced by a
trip that the same pass drops), and the second pass removes it, changing
the state again. -/
theorem c7_counterexample :
    filterStops (filterStops stops7 trips7 []).1 (filterStops stops7 trips7 []).2.1
        (filterStops stops7 trips7 []).2.2 ≠
      filterStops stops7 trips7 [] := by
  decide

/-- C9: the decoder and exporter are deterministic — byte-identical
input bytes and an identical originating filename yield identical
structured JSON output.  (In this pure embedding the whole pipeline is a
function, which is exactly the content of the claim: the source consults
no clock, randomness or iteration-order-unstable container.) -/
theorem c9_deterministic :
    ∀ (d1 d2 : Bytes) (n1 n2 : Name), d1 = d2 → n1 = n2 →
      decodeExport d1 n1 = decodeExport d2 n2 := by
  intro d1 d2 n1 n2 h1 h2
  rw [h1, h2]

set_option maxRecDepth 400000 in
set_option maxHeartbeats 4000000 in
/-- C10 (counterexample): a 300-name stop table whose referenced stops
all carry service-text names makes the scrubber skip, so stops at
indices ≥ 256 survive scrubbing, contradicting "always removed". -/
theorem c10_counterexample :
    decodeFromOffset data10 stops300 0 ≠ [] ∧
    (filterStops stops300 (decodeFromOffset data10 stops300 0) []).1.length = 300 := by
  constructor <;> decide

/-! ## Witnesses -/

/-- Witness for C1 (amended) at `B1`. -/
theorem c1_witness :
    (∀ t ∈ B1trips, 2 ≤ t.length) ∧ (∀ t ∈ B1decoded.trips, 2 ≤ t.length) :=
  ⟨c1_trip_lengths.1 B1 B1stops B1trips 256 smart_B1_eq,
   c1_trip_lengths.2 B1 B1decoded decode_B1_eq⟩

/-- Witness for C5 (amended) at `B1`. -/
theorem c5_witness :
    (∀ t ∈ B1trips, t.Chain' stepOk) ∧
    (∀ t ∈ B1decoded.trips, t.Chain' (fun a b : Entry => a.2 ≤ b.2)) :=
  ⟨c5_monotone_steps.1 B1 B1stops B1trips 256 smart_B1_eq,
   c5_monotone_steps.2 B1 B1decoded decode_B1_eq⟩

set_option maxRecDepth 400000 in
/-- Witness for C7 (amended) at a concrete fixpoint state. -/
theorem c7_witness :
    filterStops stopsFix tripsFix edgesFix = (stopsFix, tripsFix, edgesFix) :=
  c7_scrub_fixpoint stopsFix tripsFix edgesFix (by decide) (by decide)
    (by decide) (by decide)

set_option maxRecDepth 400000 in
/-- Witness for C8 at `B1`'s stop table (offset 72). -/
theorem c8_witness :
    B1stops.length = u32le B1 (72+4) - 1 ∧ B1stops = specStopNames B1 72 :=
  (c8_stop_candidate_layout B1 72).2 B1stops (by decide)

/-- Witness for C9 at `B4`. -/
theorem c9_witness : decodeExport B4 "a".data = decodeExport B4 "a".data :=
  c9_deterministic B4 B4 "a".data "a".data rfl rfl

set_option maxRecDepth 400000 in
/-- Witness for C10 (amended) at concrete states. -/
theorem c10_witness :
    (∀ t ∈ decodeFromOffset B4 S2 0, ∀ e ∈ t, e.1 ≤ 255 ∧ e.1 < S2.length) ∧
    ((filterStops stopsFix tripsFix edgesFix).1 = stopsFix ∨
     (filterStops stopsFix tripsFix edgesFix).1.length ≤ 256) :=
  ⟨c10_byte_stop_indices.1 B4 S2 0,
   c10_byte_stop_indices.2 stopsFix tripsFix edgesFix (by decide)⟩

end TT

